import Mathlib

/-! Verification development for the document-processing repository.

The embedding models, faithfully to the Python source:
- `split_pdf` / `pdfLoopF` : the paged-document splitter (adaptive batch
  search) from src/lib/processor/splitters/pdf_splitter.py.  The binary
  PDF library (fitz) is abstracted as a `PdfDoc`: the raw file size, the
  page count, a serialization-size function `segSize a b` for the document
  built from pages `[a, b)`, and whether opening the stream succeeds.
  The `while` loop is embedded as a fuel-based loop (`none` = still
  running), so that termination is a provable statement rather than an
  assumption.
- `split_xlsx` : the sheeted-document splitter (greedy grouping of whole
  sheets) from src/lib/processor/splitters/xlsx_splitter.py, over an
  `XlsxDoc` abstracting openpyxl/calamine: per-sheet serialized-size
  estimate `estSize`, group serialization size `groupSize`, sheet-name
  list, raw size, and structural validity.  The result carries the list
  of `logger.warning` records emitted (each the sheet group it reported).
- `sanitize_filename`, `consolidate_and_truncate`, `sortResults` : pure
  helpers of the orchestrator, on `List Char` (Python `str`).
- `process_direct`, `processChunkRun`, `gatherChunks`, `process_big`,
  `process` : the orchestrator (DocumentProcessor) from
  src/lib/processor/processor.py, embedded sequentially: every listener
  broadcast becomes one `PEvent`, every agent invocation one `AgentCall`,
  and yielded output is a list of fragments.  Concurrent `asyncio.gather`
  is modelled by running every task (gather does not cancel siblings) and
  failing the aggregate when any task failed; event interleavings are
  modelled as concatenation, which preserves the per-event counts and the
  happens-before facts the theorems state.
Machine integers do not overflow here (Python ints are unbounded), so
sizes are `Nat`.  Floating-point heuristics (0.7 / 1.5 / 0.9 multipliers
and the initial batch estimate) are embedded as the corresponding exact
rational floors; the source guards the only behaviour-critical use
(`new_batch_size >= batch_size` then `batch_size - 1`), which is kept.
-/

/-- Hard limit of 4 MiB (`TARGET_LIMIT_BYTES` in both splitters). -/
def TARGET_LIMIT_BYTES : Nat := 4 * 1024 * 1024

/-- Soft target: `int(TARGET_LIMIT_BYTES * 0.90)` = 3774873. -/
def SOFT_TARGET_BYTES : Nat := TARGET_LIMIT_BYTES * 90 / 100

/-- Character budget `MAX_CONTEXT_CHARS` from src/settings.py. -/
def MAX_CONTEXT_CHARS : Nat := 150000

/-- Abstraction of a paged (PDF) document as seen through the binary
library: raw byte size, page count, the serialized size of the standalone
document built from the page range `[a, b)` (`new_doc.save` after
`insert_pdf`), and whether `fitz.open` succeeds on the stream. -/
structure PdfDoc where
  fileSize : Nat
  pageCount : Nat
  segSize : Nat → Nat → Nat
  openOk : Bool

/-- An output blob of the paged splitter: either the whole input
(fast path) or the serialization of the page range `[a, b)`. -/
inductive PdfBlob
  | whole
  | seg (a b : Nat)
deriving DecidableEq, Repr

/-- Serialized size of a paged-splitter output blob. -/
def pdfBlobSize (d : PdfDoc) : PdfBlob → Nat
  | .whole => d.fileSize
  | .seg a b => d.segSize a b

/-- Batch-size adaptation after an accepted batch (pdf_splitter.py lines
73-79): grow by 1.5 when under half the soft target, shrink by 0.9
(floored, minimum 1) when above 95% of it.  `2 * size < SOFT` embeds
`current_size < SOFT_TARGET_BYTES * 0.5` and `19 * SOFT < 20 * size`
embeds `current_size > SOFT_TARGET_BYTES * 0.95` exactly. -/
def adjustAfterAccept (size batch : Nat) : Nat :=
  if 2 * size < SOFT_TARGET_BYTES then 3 * batch / 2
  else if 19 * SOFT_TARGET_BYTES < 20 * size then max 1 (9 * batch / 10)
  else batch

/-- Batch-size reduction on overshoot (pdf_splitter.py lines 84-91):
`int(batch_size * 0.7)`, forced strictly below the current value, then
clamped to a minimum of 1. -/
def shrinkBatch (batch : Nat) : Nat :=
  let nb := 7 * batch / 10
  let nb := if batch ≤ nb then batch - 1 else nb
  max 1 nb

/-- The adaptive batch loop of `split_pdf` (pdf_splitter.py lines 48-92),
with explicit fuel standing for the number of iterations of the inner
`while True` body; `none` means the loop has not yet finished.  Each
accepted batch appends the page range `(current_page, end_page)`. -/
def pdfLoopF (d : PdfDoc) : Nat → Nat → Nat → Option (List (Nat × Nat))
  | 0, _, _ => none
  | fuel + 1, cur, batch =>
    if cur < d.pageCount then
      let endP := min (cur + batch) d.pageCount
      let size := d.segSize cur endP
      if size ≤ TARGET_LIMIT_BYTES ∨ batch = 1 then
        match pdfLoopF d fuel endP (adjustAfterAccept size batch) with
        | some rest => some ((cur, endP) :: rest)
        | none => none
      else
        pdfLoopF d fuel cur (shrinkBatch batch)
    else
      some []

/-- Embedding of `split_pdf` (pdf_splitter.py lines 16-100).  Order of checks follows
the source: the byte-size fast path runs before the document is opened,
the zero-page check runs after opening.  The initial batch size embeds
`max(1, int(SOFT_TARGET_BYTES / (len(file_bytes) / total_pages)))`.
`fuel` drives the embedded `while` loop; sufficient fuel always exists
(see the termination theorem). -/
def split_pdf (d : PdfDoc) (fuel : Nat) : Except Unit (Option (List PdfBlob)) :=
  if d.fileSize < TARGET_LIMIT_BYTES then .ok (some [.whole])
  else if d.openOk = false then .error ()
  else if d.pageCount = 0 then .ok (some [])
  else
    let batch0 := max 1 (SOFT_TARGET_BYTES * d.pageCount / d.fileSize)
    .ok ((pdfLoopF d fuel 0 batch0).map (fun l => l.map (fun p => PdfBlob.seg p.1 p.2)))

/-- Abstraction of a sheeted (XLSX) workbook: raw byte size, whether the
structural validation (`CalamineWorkbook.from_filelike`) succeeds, the
sheet names in workbook order, the serialized size of one sheet copied
alone into a temporary workbook (`temp_wb.save`), and the serialized
size of a group of sheets copied into one chunk workbook
(`chunk_wb.save`). -/
structure XlsxDoc where
  fileSize : Nat
  openOk : Bool
  sheetNames : List String
  estSize : String → Nat
  groupSize : List String → Nat

/-- An output blob of the sheeted splitter: the whole input (fast path)
or a chunk workbook holding the given sheets in order. -/
inductive XBlob
  | whole
  | group (sheets : List String)
deriving DecidableEq, Repr

/-- Serialized size of a sheeted-splitter output blob. -/
def xBlobSize (d : XlsxDoc) : XBlob → Nat
  | .whole => d.fileSize
  | .group g => d.groupSize g

/-- Sum of the per-sheet size estimates of a group
(`current_size_estimate` accumulates exactly these). -/
def estSum (d : XlsxDoc) (g : List String) : Nat :=
  (g.map d.estSize).sum

/-- Loop state of `split_xlsx` (xlsx_splitter.py lines 45-46):
accumulated sheets of the open group, their estimate sum, the flushed
chunks so far, and the sheet groups reported by `logger.warning`. -/
structure XState where
  curSheets : List String
  curEst : Nat
  chunks : List (List String)
  warns : List (List String)
deriving DecidableEq, Repr

/-- One iteration of the sheet loop (xlsx_splitter.py lines 48-116).
When the next sheet would push the estimate past the soft target and the
open group is non-empty, the open group is serialized and flushed — with
a warning recorded when that serialization exceeds the hard limit —
and the sheet starts a new group; otherwise the sheet joins the open
group. -/
def xlsxStep (d : XlsxDoc) (st : XState) (s : String) : XState :=
  let sz := d.estSize s
  if SOFT_TARGET_BYTES < st.curEst + sz ∧ st.curSheets ≠ [] then
    { curSheets := [s]
      curEst := sz
      chunks := st.chunks ++ [st.curSheets]
      warns :=
        if TARGET_LIMIT_BYTES < d.groupSize st.curSheets then
          st.warns ++ [st.curSheets]
        else st.warns }
  else
    { st with curSheets := st.curSheets ++ [s], curEst := st.curEst + sz }

/-- Embedding of `split_xlsx` (xlsx_splitter.py lines 15-147), returning the output
blobs together with the `logger.warning` records emitted.  Faithful to
the source order: structural validation first, then the zero-sheet
check, then the small-file fast path, then the greedy loop and the final
flush of the remaining group (lines 119-141), which performs no size
check and records no warning. -/
def split_xlsx (d : XlsxDoc) : Except Unit (List XBlob × List (List String)) :=
  if d.openOk = false then .error ()
  else if d.sheetNames = [] then .ok ([], [])
  else if d.fileSize < TARGET_LIMIT_BYTES then .ok ([.whole], [])
  else
    let st := d.sheetNames.foldl (xlsxStep d) ⟨[], 0, [], []⟩
    let groups := st.chunks ++ (if st.curSheets ≠ [] then [st.curSheets] else [])
    .ok (groups.map XBlob.group, st.warns)

/-- Step 1 of `sanitize_filename` (pdf_splitter.py line 104):
`name.replace('_', ' ').replace('.', ' ')`, fused into one character map
(the two replacements touch disjoint characters). -/
def replaceSeps (c : Char) : Char :=
  if c = '_' ∨ c = '.' then ' ' else c

/-- The ASCII part of Python's `\s` class (space, tab, newline, carriage
return, vertical tab, form feed); the inputs of interest are ASCII. -/
def isWsChar (c : Char) : Bool :=
  c = ' ' || c = '\t' || c = '\n' || c = '\r' || c = '\x0b' || c = '\x0c'

/-- Characters kept by `re.sub(r'[^a-zA-Z0-9\s\-\(\)\[\]]', '', name)`
(pdf_splitter.py line 105): note the class keeps the whole `\s`
whitespace class, not just the space character. -/
def isKeptChar (c : Char) : Bool :=
  ('a' ≤ c && c ≤ 'z') || ('A' ≤ c && c ≤ 'Z') || ('0' ≤ c && c ≤ '9') ||
    isWsChar c || c = '-' || c = '(' || c = ')' || c = '[' || c = ']'

/-- Whitespace collapse `re.sub(r'\s+', ' ', name)` (pdf_splitter.py line 106): every
maximal run of whitespace becomes a single space.  Structured as a right
fold: a whitespace character merges into the space already produced for
the run to its right, or opens a new single space. -/
def collapseWs : List Char → List Char
  | [] => []
  | c :: rest =>
    let r := collapseWs rest
    if isWsChar c then
      if r.head? = some ' ' then r else ' ' :: r
    else c :: r

/-- Strip stage `name.strip()` (pdf_splitter.py line 107): drop leading and trailing
whitespace. -/
def stripWs (l : List Char) : List Char :=
  ((l.dropWhile isWsChar).reverse.dropWhile isWsChar).reverse

/-- Embedding of `sanitize_filename` (pdf_splitter.py lines 103-107) on the character
list of the input string. -/
def sanitize_filename (s : List Char) : List Char :=
  stripWs (collapseWs ((s.map replaceSeps).filter isKeptChar))

/-- The `"\n\n"` separator used by
`DocumentProcessor._consolidate_and_truncate` (processor.py line 125). -/
def NNSep : List Char := ['\n', '\n']

/-- The truncation marker appended on overflow (processor.py line 134). -/
def TRUNC_MARKER : List Char := ['\n', '.', '.', '.', ' ', '[', 'T', 'R', 'U', 'N', 'C', 'A', 'T', 'E', 'D', ']']

/-- Embedding of `sep.join(xs)` on character lists. -/
def joinSep (sep : List Char) : List (List Char) → List Char
  | [] => []
  | [x] => x
  | x :: xs => x ++ sep ++ joinSep sep xs

/-- Embedding of `DocumentProcessor._consolidate_and_truncate` (processor.py lines
124-135).  The `num_chunks` argument of the source is only logged and is
omitted.  Join with a blank line; hard-truncate to `MAX_CONTEXT_CHARS`
characters plus the marker when over budget. -/
def consolidate_and_truncate (responses : List (List Char)) : List Char :=
  let consolidated := joinSep NNSep responses
  if MAX_CONTEXT_CHARS < consolidated.length then
    consolidated.take MAX_CONTEXT_CHARS ++ TRUNC_MARKER
  else consolidated

/-- Embedding of `results.sort(key=lambda x: x[0])` (processor.py line 222): sort the
gathered (sequence number, text) pairs by sequence number.  The source
uses Python's stable sort; on the contiguous, duplicate-free sequence
numbers produced by `enumerate(chunks, 1)` any sort by the key yields
the same list. -/
def sortResults (l : List (Nat × List Char)) : List (Nat × List Char) :=
  l.insertionSort (fun a b => a.1 ≤ b.1)

/-- One event of `agent.stream_async`: the orchestrator yields the
payload of a `"data"` event, a newline for a `"message"` event, and
ignores every other shape (processor.py lines 174-178, 194-198,
256-260). -/
inductive StreamEvt
  | data (s : List Char)
  | message
  | other
deriving DecidableEq, Repr

/-- The fragments the orchestrator yields for a streamed response. -/
def renderStream : List StreamEvt → List (List Char)
  | [] => []
  | .data s :: r => s :: renderStream r
  | .message :: r => ['\n'] :: renderStream r
  | .other :: r => renderStream r

/-- One listener broadcast of the orchestrator.  Each constructor stands
for the corresponding `_notify_*` call, which awaits the hook of every
registered listener in registration order. -/
inductive PEvent
  | processingStart (name : List Char) (totalChunks : Nat)
  | chunkStart (n : Nat) (name : List Char)
  | chunkEnd (n : Nat) (name : List Char) (response : List Char)
  | processingEnd (name : List Char)
  | errorEvt
  | summaryStart
  | summaryEnd
deriving DecidableEq, Repr

/-- Whether a broadcast is the error hook (`_notify_error`). -/
def isErrorEvt : PEvent → Bool
  | .errorEvt => true
  | _ => false

/-- One call into the analysis agent. -/
inductive AgentCall
  | chunkInvoke (n : Nat) (name : List Char)
  | finalConsolidation (context : List Char)
  | directStream (name : List Char)
  | crossFileStream (content : List (List Char))
deriving DecidableEq, Repr

/-- Whether an agent call is the per-file final consolidation request of
the chunked path (processor.py line 256). -/
def isFinalConsolidation : AgentCall → Bool
  | .finalConsolidation _ => true
  | _ => false

/-- Observable result of one orchestrator run: the listener broadcasts
in order, the agent calls in order, and either the yielded output
fragments or the exception that reached the caller. -/
structure RunResult (α : Type) where
  events : List PEvent
  calls : List AgentCall
  outcome : Except Unit α

/-- External behaviour surrounding one chunked (`_process_big`) run:
what `agent.invoke_async` returns for chunk number `i`, and what the
final consolidation `agent.stream_async` does. -/
structure BigEnv where
  chunkResult : Nat → Except Unit (List Char)
  finalStream : Except Unit (List StreamEvt)

/-- Whether the analysis of chunk `i` raises. -/
def chunkFails (env : BigEnv) (i : Nat) : Bool :=
  match env.chunkResult i with
  | .ok _ => false
  | .error _ => true

/-- Embedding of `DocumentProcessor._process_chunk` (processor.py lines 101-122) for
chunk number `i`: notify chunk start, invoke the agent, then either
notify chunk end and return the numbered partial result, or notify the
error and re-raise. -/
def processChunkRun (env : BigEnv) (name : List Char) (i : Nat) :
    RunResult (Nat × List Char) :=
  match env.chunkResult i with
  | .ok t => ⟨[.chunkStart i name, .chunkEnd i name t], [.chunkInvoke i name], .ok (i, t)⟩
  | .error e => ⟨[.chunkStart i name, .errorEvt], [.chunkInvoke i name], .error e⟩

/-- Embedding of `asyncio.gather` over the chunk tasks (processor.py lines 216-221):
every task runs (gather does not cancel siblings on failure), their
broadcasts and calls all occur, and the gather as a whole re-raises when
any task failed. -/
def gatherChunks (env : BigEnv) (name : List Char) :
    List Nat → RunResult (List (Nat × List Char))
  | [] => ⟨[], [], .ok []⟩
  | i :: rest =>
    let r := processChunkRun env name i
    let g := gatherChunks env name rest
    ⟨r.events ++ g.events, r.calls ++ g.calls,
      match r.outcome, g.outcome with
      | .ok x, .ok xs => .ok (x :: xs)
      | .error e, _ => .error e
      | .ok _, .error e => .error e⟩

/-- Embedding of `DocumentProcessor._process_big` (processor.py lines 205-261).
`split` is the result of `handler.split(file_bytes)` (line 209, a list
of chunk blobs, or the typed split error it raises); chunk tasks are
numbered from 1 (`enumerate(chunks, 1)`).  Note the source wraps nothing
here in try/except: a split failure propagates before any broadcast,
and a failure of the final consolidation stream propagates after
`processing_end`; only the chunk tasks notify errors themselves. -/
def process_big (env : BigEnv) (split : Except Unit (List Nat)) (name : List Char) :
    RunResult (List (List Char)) :=
  match split with
  | .error e => ⟨[], [], .error e⟩
  | .ok chunkIds =>
    let n := chunkIds.length
    let g := gatherChunks env name (List.range' 1 n)
    match g.outcome with
    | .error e => ⟨.processingStart name n :: g.events, g.calls, .error e⟩
    | .ok results =>
      let ctx := consolidate_and_truncate ((sortResults results).map Prod.snd)
      match env.finalStream with
      | .error e =>
        ⟨(.processingStart name n :: g.events) ++ [.processingEnd name],
          g.calls ++ [.finalConsolidation ctx], .error e⟩
      | .ok sevts =>
        ⟨(.processingStart name n :: g.events) ++ [.processingEnd name],
          g.calls ++ [.finalConsolidation ctx], .ok (renderStream sevts)⟩

/-- External behaviour of the direct (whole-file) path: what the
streamed whole-document request does. -/
structure DirectEnv where
  stream : Except Unit (List StreamEvt)

/-- Embedding of `DocumentProcessor._process` (processor.py lines 181-203): notify
processing start with one chunk, stream the whole document, and either
notify processing end, or — the body is wrapped in try/except — notify
the error and re-raise. -/
def process_direct (env : DirectEnv) (name : List Char) :
    RunResult (List (List Char)) :=
  match env.stream with
  | .error e => ⟨[.processingStart name 1, .errorEvt], [.directStream name], .error e⟩
  | .ok sevts =>
    ⟨[.processingStart name 1, .processingEnd name], [.directStream name],
      .ok (renderStream sevts)⟩

/-- External behaviour of a `process` call: the collected full text of
each file (`_collect_file_content`, abstracting the per-file pipeline),
the behaviour of the cross-file summary stream, and the run performed
when exactly one file is given (delegation to `_process_file`). -/
structure ProcEnv where
  collect : Nat → Except Unit (List Char)
  crossStream : Except Unit (List StreamEvt)
  singleRun : Nat → RunResult (List (List Char))

/-- Embedding of `asyncio.gather` over `_collect_file_content` tasks (processor.py
lines 162-167): all per-file texts, or the failure of any file. -/
def combineResults : List (Except Unit (List Char)) → Except Unit (List (List Char))
  | [] => .ok []
  | .ok t :: rest =>
    match combineResults rest with
    | .ok ts => .ok (t :: ts)
    | .error e => .error e
  | .error e :: _ => .error e

/-- Embedding of `DocumentProcessor.process` (processor.py lines 153-179), files
stood for by opaque ids.  A single file delegates to `_process_file`;
otherwise — including an empty list — all files are collected in
parallel, the summary start is notified, one cross-file consolidation
request is streamed whose user-message content carries one text entry
per collected result, and the summary end is notified. -/
def process (env : ProcEnv) (files : List Nat) : RunResult (List (List Char)) :=
  if files.length = 1 then env.singleRun (files.headD 0)
  else
    match combineResults (files.map env.collect) with
    | .error e => ⟨[], [], .error e⟩
    | .ok texts =>
      match env.crossStream with
      | .error e => ⟨[.summaryStart], [.crossFileStream texts], .error e⟩
      | .ok sevts =>
        ⟨[.summaryStart, .summaryEnd], [.crossFileStream texts], .ok (renderStream sevts)⟩

/-- A zero-byte, zero-page document: the byte-size fast path applies. -/
def pdfZeroSmall : PdfDoc := ⟨0, 0, fun _ _ => 0, true⟩

/-- A zero-page document whose raw size reaches the hard limit. -/
def pdfBigZeroPages : PdfDoc := ⟨TARGET_LIMIT_BYTES, 0, fun _ _ => 0, true⟩

/-- Claim C5, as stated, is false: the paged splitter checks the raw
byte size before opening the document, so a zero-page input that is
smaller than the hard limit returns the whole input as a single-element
result instead of the empty result the claim requires. -/
theorem claim_C5_counterexample :
    pdfZeroSmall.pageCount = 0 ∧
    split_pdf pdfZeroSmall 1 = .ok (some [PdfBlob.whole]) ∧
    split_pdf pdfZeroSmall 1 ≠ .ok (some []) := by
  refine ⟨rfl, rfl, fun h => ?_⟩
  rw [show split_pdf pdfZeroSmall 1 = .ok (some [PdfBlob.whole]) from rfl] at h
  simp at h

/-- Claim C5, amended: an input under the hard limit — even one with
zero pages — returns the whole input as a single-element result (the
fast path runs first); a zero-page input at or above the hard limit
that opens successfully yields the empty result. -/
theorem claim_C5_amended (d : PdfDoc) (fuel : Nat) :
    (d.fileSize < TARGET_LIMIT_BYTES →
      split_pdf d fuel = .ok (some [PdfBlob.whole])) ∧
    (TARGET_LIMIT_BYTES ≤ d.fileSize → d.openOk = true → d.pageCount = 0 →
      split_pdf d fuel = .ok (some [])) := by
  constructor
  · intro h
    unfold split_pdf
    rw [if_pos h]
  · intro h1 h2 h3
    unfold split_pdf
    rw [if_neg (by omega), if_neg (by simp [h2]), if_pos h3]

/-- Witness for the amended claim C5 at two concrete documents. -/
theorem claim_C5_amended_witness :
    split_pdf pdfZeroSmall 1 = .ok (some [PdfBlob.whole]) ∧
    split_pdf pdfBigZeroPages 1 = .ok (some []) :=
  ⟨(claim_C5_amended pdfZeroSmall 1).1 (by decide),
    (claim_C5_amended pdfBigZeroPages 1).2 (Nat.le_refl _) rfl rfl⟩

/-- Claim C6: the sheeted splitter validates structural integrity before
its fast path, so every structurally invalid input — of any size — is
rejected with the typed split error and is never returned unchanged. -/
theorem claim_C6 (d : XlsxDoc) (h : d.openOk = false) :
    split_xlsx d = .error () ∧ ∀ r, split_xlsx d ≠ .ok r := by
  have herr : split_xlsx d = .error () := by
    unfold split_xlsx
    rw [if_pos h]
  refine ⟨herr, fun r hr => ?_⟩
  rw [herr] at hr
  cases hr

/-- A small corrupt workbook: ten bytes, validation fails. -/
def xdocCorruptSmall : XlsxDoc := ⟨10, false, ["a"], fun _ => 1, fun _ => 1⟩

/-- Witness for claim C6: a corrupt file far below the hard limit is
rejected rather than passed through. -/
theorem claim_C6_witness :
    xdocCorruptSmall.fileSize < TARGET_LIMIT_BYTES ∧
    split_xlsx xdocCorruptSmall = .error () :=
  ⟨by decide, (claim_C6 xdocCorruptSmall rfl).1⟩

/-- Claim C4: the consolidation-and-truncation function returns the
blank-line-joined concatenation unchanged when it is within the
150000-character budget; beyond the budget it returns exactly the
budget-length prefix followed by the truncation marker, so the length is
the budget plus the marker length, and the prefix relationship with the
untruncated text is explicit. -/
theorem claim_C4 (responses : List (List Char)) :
    ((joinSep NNSep responses).length ≤ MAX_CONTEXT_CHARS →
      consolidate_and_truncate responses = joinSep NNSep responses) ∧
    (MAX_CONTEXT_CHARS < (joinSep NNSep responses).length →
      consolidate_and_truncate responses
          = (joinSep NNSep responses).take MAX_CONTEXT_CHARS ++ TRUNC_MARKER ∧
        (consolidate_and_truncate responses).length
          = MAX_CONTEXT_CHARS + TRUNC_MARKER.length ∧
        ∃ rest, joinSep NNSep responses
          = (joinSep NNSep responses).take MAX_CONTEXT_CHARS ++ rest) := by
  constructor
  · intro h
    unfold consolidate_and_truncate
    rw [if_neg (by omega)]
  · intro h
    have heq : consolidate_and_truncate responses
        = (joinSep NNSep responses).take MAX_CONTEXT_CHARS ++ TRUNC_MARKER := by
      unfold consolidate_and_truncate
      rw [if_pos h]
    refine ⟨heq, ?_, ⟨(joinSep NNSep responses).drop MAX_CONTEXT_CHARS,
      (List.take_append_drop _ _).symm⟩⟩
    rw [heq]
    simp only [List.length_append, List.length_take]
    omega

/-- Witness for claim C4 on a 150001-character single response. -/
theorem claim_C4_witness :
    consolidate_and_truncate [List.replicate 150001 'a']
        = (List.replicate 150001 'a').take MAX_CONTEXT_CHARS ++ TRUNC_MARKER ∧
      (consolidate_and_truncate [List.replicate 150001 'a']).length
        = MAX_CONTEXT_CHARS + TRUNC_MARKER.length := by
  have hj : joinSep NNSep [List.replicate 150001 'a'] = List.replicate 150001 'a' := rfl
  have hmax : MAX_CONTEXT_CHARS = 150000 := rfl
  have hlen : MAX_CONTEXT_CHARS < (joinSep NNSep [List.replicate 150001 'a']).length := by
    rw [hj, List.length_replicate]
    omega
  have h := (claim_C4 [List.replicate 150001 'a']).2 hlen
  refine ⟨?_, h.2.1⟩
  rw [h.1, hj]

/-- The chunked-path environment used by the claim C1 counterexample:
every chunk analysis succeeds and the consolidation stream is empty. -/
def bigEnvOk : BigEnv := ⟨fun _ => .ok ['t'], .ok []⟩

/-- Claim C1, as stated, is false: `_process_big` wraps nothing in
try/except, so a structural split failure (raised by `handler.split` at
processor.py line 209) reaches the caller without any listener having
been notified — here the run raises while the event list is empty, with
no error broadcast at all. -/
theorem claim_C1_counterexample :
    (process_big bigEnvOk (.error ()) ['f']).outcome = .error () ∧
    (process_big bigEnvOk (.error ()) ['f']).events.countP isErrorEvt = 0 ∧
    (process_big bigEnvOk (.error ()) ['f']).events = [] :=
  ⟨rfl, rfl, rfl⟩

/-- A workbook at the hard limit whose single sheet serializes above the
hard limit on its own. -/
def xdocOversheet : XlsxDoc :=
  ⟨TARGET_LIMIT_BYTES, true, ["a"], fun _ => 1, fun _ => TARGET_LIMIT_BYTES + 1⟩

/-- Claim C2, as stated, is false: when the oversized group is the last
group — flushed after the sheet loop (xlsx_splitter.py lines 119-141) —
the blob exceeding the hard limit is emitted with no size-violation
warning logged: the warning list of the run is empty. -/
theorem claim_C2_counterexample :
    split_xlsx xdocOversheet = .ok ([XBlob.group ["a"]], []) ∧
    TARGET_LIMIT_BYTES < xBlobSize xdocOversheet (XBlob.group ["a"]) :=
  ⟨rfl, by decide⟩

/-- Claim C9, as stated, is false: the strip stage keeps the whole `\s`
class, so a tab between kept characters is collapsed into a space, not
removed — `sanitize_filename "a\tb"` is `"a b"`, not `"ab"`. -/
theorem claim_C9_counterexample :
    sanitize_filename ['a', '\t', 'b'] = ['a', ' ', 'b'] ∧
    sanitize_filename ['a', '\t', 'b'] ≠ ['a', 'b'] := by
  exact ⟨by decide, by decide⟩

/-- Claim C10: calling the public entry point with an empty file list
takes the multi-file branch: zero per-file results are gathered, summary
start is notified, one streamed cross-file consolidation request is
issued with an empty content list, its response is streamed to the
caller, and summary end is notified. -/
theorem claim_C10 (env : ProcEnv) (sevts : List StreamEvt)
    (h : env.crossStream = .ok sevts) :
    process env []
      = ⟨[.summaryStart, .summaryEnd], [.crossFileStream []],
          .ok (renderStream sevts)⟩ := by
  unfold process
  rw [if_neg (by simp)]
  simp [combineResults, h]

/-- The environment used by the claim C10 witness. -/
def procEnvEx : ProcEnv :=
  ⟨fun _ => .ok [], .ok [.data ['z']], fun _ => ⟨[], [], .ok []⟩⟩

/-- Witness for claim C10 at a concrete environment. -/
theorem claim_C10_witness :
    process procEnvEx []
      = ⟨[.summaryStart, .summaryEnd], [.crossFileStream []], .ok [['z']]⟩ := by
  have h := claim_C10 procEnvEx [.data ['z']] rfl
  simpa [renderStream] using h

instance : IsTotal (Nat × List Char) (fun a b => a.1 ≤ b.1) :=
  ⟨fun a b => Nat.le_total a.1 b.1⟩

instance : IsTrans (Nat × List Char) (fun a b => a.1 ≤ b.1) :=
  ⟨fun _ _ _ h1 h2 => Nat.le_trans h1 h2⟩

/-- Claim C3: with duplicate-free sequence numbers — as produced by
`enumerate(chunks, 1)` — sorting the gathered partial results by
sequence number is permutation-invariant, so the consolidated text built
from them is the same for every task completion order. -/
theorem claim_C3 (l₁ l₂ : List (Nat × List Char)) (hperm : l₁.Perm l₂)
    (hnd : (l₁.map Prod.fst).Nodup) :
    sortResults l₁ = sortResults l₂ ∧
    consolidate_and_truncate ((sortResults l₁).map Prod.snd)
      = consolidate_and_truncate ((sortResults l₂).map Prod.snd) := by
  have p₁ : (sortResults l₁).Perm l₁ := List.perm_insertionSort _ _
  have p₂ : (sortResults l₂).Perm l₂ := List.perm_insertionSort _ _
  have p : (sortResults l₁).Perm (sortResults l₂) :=
    p₁.trans (hperm.trans p₂.symm)
  have hnd₂ : (l₂.map Prod.fst).Nodup := ((hperm.map Prod.fst).nodup_iff).mp hnd
  have hnds₁ : ((sortResults l₁).map Prod.fst).Nodup :=
    ((p₁.map Prod.fst).nodup_iff).mpr hnd
  have hnds₂ : ((sortResults l₂).map Prod.fst).Nodup :=
    ((p₂.map Prod.fst).nodup_iff).mpr hnd₂
  have hs₁ : List.Sorted (fun a b : Nat × List Char => a.1 ≤ b.1) (sortResults l₁) :=
    List.sorted_insertionSort _ _
  have hs₂ : List.Sorted (fun a b : Nat × List Char => a.1 ≤ b.1) (sortResults l₂) :=
    List.sorted_insertionSort _ _
  have hlt₁ : List.Sorted (fun a b : Nat × List Char => a.1 < b.1) (sortResults l₁) :=
    (hs₁.and ((List.pairwise_map).mp hnds₁)).imp
      (fun h => Nat.lt_of_le_of_ne h.1 h.2)
  have hlt₂ : List.Sorted (fun a b : Nat × List Char => a.1 < b.1) (sortResults l₂) :=
    (hs₂.and ((List.pairwise_map).mp hnds₂)).imp
      (fun h => Nat.lt_of_le_of_ne h.1 h.2)
  haveI : IsAntisymm (Nat × List Char) (fun a b => a.1 < b.1) :=
    ⟨fun a b h1 h2 => absurd h2 (Nat.lt_asymm h1)⟩
  have heq : sortResults l₁ = sortResults l₂ :=
    List.eq_of_perm_of_sorted p hlt₁ hlt₂
  exact ⟨heq, by rw [heq]⟩

/-- Witness for claim C3: two completion orders of the same two partial
results reduce to the same sorted list and consolidated text. -/
theorem claim_C3_witness :
    sortResults [(2, ['b']), (1, ['a'])] = sortResults [(1, ['a']), (2, ['b'])] ∧
    consolidate_and_truncate ((sortResults [(2, ['b']), (1, ['a'])]).map Prod.snd)
      = consolidate_and_truncate ((sortResults [(1, ['a']), (2, ['b'])]).map Prod.snd) :=
  claim_C3 [(2, ['b']), (1, ['a'])] [(1, ['a']), (2, ['b'])]
    (List.Perm.swap (1, ['a']) (2, ['b']) []) (by decide)

/-- The overshoot reduction strictly decreases any batch size above 1. -/
theorem shrinkBatch_lt {b : Nat} (hb : 2 ≤ b) : shrinkBatch b < b := by
  have h7 : 7 * b / 10 < b := by
    rw [Nat.div_lt_iff_lt_mul (by norm_num)]
    omega
  simp only [shrinkBatch]
  rw [if_neg (by omega)]
  rw [sup_lt_iff]
  exact ⟨by omega, h7⟩

/-- The overshoot reduction never goes below 1. -/
theorem shrinkBatch_pos (b : Nat) : 1 ≤ shrinkBatch b := by
  simp only [shrinkBatch]
  exact le_sup_left

/-- The post-acceptance adaptation keeps the batch size at least 1. -/
theorem adjustAfterAccept_pos {b : Nat} (hb : 1 ≤ b) (size : Nat) :
    1 ≤ adjustAfterAccept size b := by
  unfold adjustAfterAccept
  split
  · rw [Nat.le_div_iff_mul_le (by norm_num)]
    omega
  · split
    · exact le_sup_left
    · exact hb

/-- Sufficient fuel exists for the adaptive batch loop from any state:
the page cursor strictly advances on every accepted batch and the batch
size strictly decreases on every overshoot, so the loop reaches the end
of the document. -/
theorem pdfLoopF_total (d : PdfDoc) :
    ∀ rem cur batch, d.pageCount - cur ≤ rem → 1 ≤ batch →
      ∃ fuel, (pdfLoopF d fuel cur batch).isSome := by
  intro rem
  induction rem with
  | zero =>
    intro cur batch hrem _
    refine ⟨1, ?_⟩
    have h : ¬cur < d.pageCount := by omega
    simp [pdfLoopF, h]
  | succ rem ih =>
    intro cur batch
    induction batch using Nat.strong_induction_on with
    | _ batch ihb =>
      intro hrem hb
      by_cases h : cur < d.pageCount
      · by_cases hacc :
            d.segSize cur (min (cur + batch) d.pageCount) ≤ TARGET_LIMIT_BYTES ∨ batch = 1
        · obtain ⟨fuel, hf⟩ := ih (min (cur + batch) d.pageCount)
            (adjustAfterAccept (d.segSize cur (min (cur + batch) d.pageCount)) batch)
            (by omega) (adjustAfterAccept_pos hb _)
          obtain ⟨res, hres⟩ := Option.isSome_iff_exists.mp hf
          refine ⟨fuel + 1, ?_⟩
          simp only [pdfLoopF, if_pos h, if_pos hacc, hres]
          rfl
        · have hb2 : 2 ≤ batch := by
            by_contra hlt
            have hb1 : batch = 1 := by omega
            exact hacc (Or.inr hb1)
          obtain ⟨fuel, hf⟩ :=
            ihb (shrinkBatch batch) (shrinkBatch_lt hb2) hrem (shrinkBatch_pos _)
          refine ⟨fuel + 1, ?_⟩
          simp only [pdfLoopF, if_pos h, if_neg hacc]
          exact hf
      · refine ⟨1, ?_⟩
        simp [pdfLoopF, h]

/-- Claim C7: the adaptive batch search terminates on every input —
on overshoot with batch size above 1 the batch size strictly decreases
and stays at least 1, a batch of size 1 is always accepted (the accept
condition holds by its right disjunct), and from any cursor/batch state
some finite fuel completes the loop. -/
theorem claim_C7 (d : PdfDoc) :
    (∀ b, 2 ≤ b → shrinkBatch b < b) ∧
    (∀ b, 1 ≤ shrinkBatch b) ∧
    (∀ cur batch, 1 ≤ batch → ∃ fuel, (pdfLoopF d fuel cur batch).isSome) :=
  ⟨fun _ hb => shrinkBatch_lt hb, shrinkBatch_pos,
    fun cur batch hb => pdfLoopF_total d (d.pageCount - cur) cur batch (Nat.le_refl _) hb⟩

/-- A ten-page, 30 MB document whose every page serializes to 3 MB. -/
def pdfAdvEx : PdfDoc := ⟨30000000, 10, fun a b => (b - a) * 3000000, true⟩

/-- Witness for claim C7 at a concrete document and start state. -/
theorem claim_C7_witness : ∃ fuel, (pdfLoopF pdfAdvEx fuel 0 3).isSome :=
  (claim_C7 pdfAdvEx).2.2 0 3 (by omega)

/-- Every page range accepted by the adaptive loop is within the hard
limit or is a single page (the only way an oversized batch is emitted is
with batch size 1, and then the range spans exactly one page). -/
theorem pdfLoopF_chunk_ok (d : PdfDoc) :
    ∀ fuel cur batch res, pdfLoopF d fuel cur batch = some res →
      ∀ p ∈ res, d.segSize p.1 p.2 ≤ TARGET_LIMIT_BYTES ∨ p.2 = p.1 + 1 := by
  intro fuel
  induction fuel with
  | zero =>
    intro cur batch res h
    simp [pdfLoopF] at h
  | succ fuel ih =>
    intro cur batch res h
    simp only [pdfLoopF] at h
    by_cases hc : cur < d.pageCount
    · rw [if_pos hc] at h
      by_cases hacc :
          d.segSize cur (min (cur + batch) d.pageCount) ≤ TARGET_LIMIT_BYTES ∨ batch = 1
      · rw [if_pos hacc] at h
        cases hrec : pdfLoopF d fuel (min (cur + batch) d.pageCount)
            (adjustAfterAccept (d.segSize cur (min (cur + batch) d.pageCount)) batch) with
        | none => rw [hrec] at h; cases h
        | some rest =>
          rw [hrec] at h
          have hres : res = (cur, min (cur + batch) d.pageCount) :: rest := by
            cases h
            rfl
          subst hres
          intro p hp
          rcases List.mem_cons.mp hp with hp | hp
          · subst hp
            rcases hacc with hacc | hacc
            · exact Or.inl hacc
            · subst hacc
              right
              show min (cur + 1) d.pageCount = cur + 1
              omega
          · exact ih _ _ _ hrec p hp
      · rw [if_neg hacc] at h
        exact ih _ _ _ h
    · rw [if_neg hc] at h
      have hres : res = [] := by
        cases h
        rfl
      subst hres
      intro p hp
      cases hp

/-- The greedy-loop invariant of the sheeted splitter: the running
estimate equals the estimate sum of the open group; the open group and
every flushed chunk fit the soft target by estimate or consist of a
single sheet; and every flushed chunk whose serialized size exceeds the
hard limit has been recorded in the warning list. -/
def XInv (d : XlsxDoc) (st : XState) : Prop :=
  st.curEst = estSum d st.curSheets ∧
  (estSum d st.curSheets ≤ SOFT_TARGET_BYTES ∨ ∃ s, st.curSheets = [s]) ∧
  (∀ g ∈ st.chunks, estSum d g ≤ SOFT_TARGET_BYTES ∨ ∃ s, g = [s]) ∧
  (∀ g ∈ st.chunks, TARGET_LIMIT_BYTES < d.groupSize g → g ∈ st.warns)

/-- Additivity of `estSum` over an appended sheet. -/
theorem estSum_append_one (d : XlsxDoc) (l : List String) (s : String) :
    estSum d (l ++ [s]) = estSum d l + d.estSize s := by
  simp [estSum]

/-- One step of the sheet loop preserves the invariant. -/
theorem xlsxStep_inv (d : XlsxDoc) (st : XState) (s : String) (h : XInv d st) :
    XInv d (xlsxStep d st s) := by
  obtain ⟨h1, h2, h3, h4⟩ := h
  unfold xlsxStep
  by_cases hc : SOFT_TARGET_BYTES < st.curEst + d.estSize s ∧ st.curSheets ≠ []
  · rw [if_pos hc]
    refine ⟨by simp [estSum], Or.inr ⟨s, rfl⟩, ?_, ?_⟩
    · intro g hg
      rcases List.mem_append.mp hg with hg | hg
      · exact h3 g hg
      · rw [List.mem_singleton.mp hg]
        exact h2
    · intro g hg hover
      by_cases hw : TARGET_LIMIT_BYTES < d.groupSize st.curSheets
      · rw [if_pos hw]
        rcases List.mem_append.mp hg with hg | hg
        · exact List.mem_append_left _ (h4 g hg hover)
        · rw [List.mem_singleton.mp hg]
          exact List.mem_append_right _ (List.mem_singleton.mpr rfl)
      · rw [if_neg hw]
        rcases List.mem_append.mp hg with hg | hg
        · exact h4 g hg hover
        · rw [List.mem_singleton.mp hg] at hover
          exact absurd hover hw
  · rw [if_neg hc]
    refine ⟨?_, ?_, h3, h4⟩
    · simp only []
      rw [estSum_append_one, h1]
    · by_cases hnil : st.curSheets = []
      · rw [hnil]
        exact Or.inr ⟨s, rfl⟩
      · left
        have hle : st.curEst + d.estSize s ≤ SOFT_TARGET_BYTES := by
          by_contra hgt
          exact hc ⟨by omega, hnil⟩
        rw [estSum_append_one]
        omega

/-- The invariant holds after folding the sheet loop over any sheets. -/
theorem xlsxFold_inv (d : XlsxDoc) :
    ∀ (l : List String) (st : XState), XInv d st →
      XInv d (l.foldl (xlsxStep d) st) := by
  intro l
  induction l with
  | nil => intro st h; exact h
  | cons s rest ih =>
    intro st h
    exact ih _ (xlsxStep_inv d st s h)

/-- The open group is never empty after a step. -/
theorem xlsxStep_ne (d : XlsxDoc) (st : XState) (s : String) :
    (xlsxStep d st s).curSheets ≠ [] := by
  unfold xlsxStep
  by_cases hc : SOFT_TARGET_BYTES < st.curEst + d.estSize s ∧ st.curSheets ≠ []
  · rw [if_pos hc]
    simp
  · rw [if_neg hc]
    simp

/-- After folding over a non-empty sheet list the open group is
non-empty. -/
theorem xlsxFold_ne (d : XlsxDoc) :
    ∀ (l : List String) (st : XState), st.curSheets ≠ [] ∨ l ≠ [] →
      (l.foldl (xlsxStep d) st).curSheets ≠ [] := by
  intro l
  induction l with
  | nil =>
    intro st h
    rcases h with h | h
    · exact h
    · exact absurd rfl h
  | cons s rest ih =>
    intro st _
    exact ih _ (Or.inl (xlsxStep_ne d st s))

/-- In the loop case (valid, non-empty, at or above the hard limit) the
sheeted splitter returns the flushed groups followed by the final flush
of the open group, plus the warnings recorded during the loop. -/
theorem split_xlsx_loop (d : XlsxDoc) (h1 : ¬d.openOk = false)
    (h2 : d.sheetNames ≠ []) (h3 : ¬d.fileSize < TARGET_LIMIT_BYTES) :
    split_xlsx d =
      .ok ((((d.sheetNames.foldl (xlsxStep d) ⟨[], 0, [], []⟩).chunks
          ++ [(d.sheetNames.foldl (xlsxStep d) ⟨[], 0, [], []⟩).curSheets]).map XBlob.group),
        (d.sheetNames.foldl (xlsxStep d) ⟨[], 0, [], []⟩).warns) := by
  have hne := xlsxFold_ne d d.sheetNames ⟨[], 0, [], []⟩ (Or.inr h2)
  unfold split_xlsx
  rw [if_neg h1, if_neg h2, if_neg h3]
  simp only []
  rw [if_pos hne]

/-- The invariant holds at the initial loop state. -/
theorem xInv_init (d : XlsxDoc) : XInv d ⟨[], 0, [], []⟩ := by
  refine ⟨by simp [estSum], Or.inl (by simp [estSum]), ?_, ?_⟩
  · intro g hg
    cases hg
  · intro g hg
    cases hg

/-- Claim C2, amended.  Paged splitter: every output blob is within the
hard limit except possibly a single-page blob, and no warning is ever
logged for it.  Sheeted splitter: every output group either has
estimated size within the soft target or is a single sheet (groups are
formed from the per-sheet estimates, so the actual serialized size of a
flushed group may exceed the hard limit); a flushed group whose
serialized size exceeds the hard limit is logged with a size-violation
warning only when it is flushed during the loop — the final group
flushed after the loop is emitted as-is with no warning (see the
counterexample). -/
theorem claim_C2_amended :
    (∀ (d : PdfDoc) (fuel : Nat) (bs : List PdfBlob),
      split_pdf d fuel = .ok (some bs) →
      ∀ b ∈ bs, pdfBlobSize d b ≤ TARGET_LIMIT_BYTES ∨ ∃ a, b = .seg a (a + 1)) ∧
    (∀ (d : XlsxDoc) (bs : List XBlob) (ws : List (List String)),
      split_xlsx d = .ok (bs, ws) →
      (∀ b ∈ bs, (b = .whole → d.fileSize ≤ TARGET_LIMIT_BYTES) ∧
        (∀ g, b = .group g → estSum d g ≤ SOFT_TARGET_BYTES ∨ ∃ s, g = [s])) ∧
      (∀ g, XBlob.group g ∈ bs.dropLast →
        TARGET_LIMIT_BYTES < d.groupSize g → g ∈ ws)) := by
  constructor
  · intro d fuel bs h
    unfold split_pdf at h
    by_cases h1 : d.fileSize < TARGET_LIMIT_BYTES
    · rw [if_pos h1] at h
      simp only [Except.ok.injEq, Option.some.injEq] at h
      subst h
      intro b hb
      rw [List.mem_singleton] at hb
      subst hb
      exact Or.inl (by simp only [pdfBlobSize]; omega)
    · rw [if_neg h1] at h
      by_cases h2 : d.openOk = false
      · rw [if_pos h2] at h
        cases h
      · rw [if_neg h2] at h
        by_cases h3 : d.pageCount = 0
        · rw [if_pos h3] at h
          simp only [Except.ok.injEq, Option.some.injEq] at h
          subst h
          intro b hb
          cases hb
        · rw [if_neg h3] at h
          simp only [Except.ok.injEq] at h
          rw [Option.map_eq_some'] at h
          obtain ⟨l, hl, hbs⟩ := h
          subst hbs
          intro b hb
          obtain ⟨p, hp, rfl⟩ := List.mem_map.mp hb
          rcases pdfLoopF_chunk_ok d fuel 0 _ l hl p hp with hsz | hone
          · exact Or.inl hsz
          · exact Or.inr ⟨p.1, by rw [← hone]⟩
  · intro d bs ws h
    by_cases h1 : d.openOk = false
    · unfold split_xlsx at h
      rw [if_pos h1] at h
      cases h
    · by_cases h2 : d.sheetNames = []
      · unfold split_xlsx at h
        rw [if_neg h1, if_pos h2] at h
        simp only [Except.ok.injEq, Prod.mk.injEq] at h
        obtain ⟨hbs, hws⟩ := h
        subst hbs
        subst hws
        refine ⟨fun b hb => ?_, fun g hg => ?_⟩
        · cases hb
        · cases hg
      · by_cases h3 : d.fileSize < TARGET_LIMIT_BYTES
        · unfold split_xlsx at h
          rw [if_neg h1, if_neg h2, if_pos h3] at h
          simp only [Except.ok.injEq, Prod.mk.injEq] at h
          obtain ⟨hbs, hws⟩ := h
          subst hbs
          subst hws
          refine ⟨fun b hb => ?_, fun g hg => ?_⟩
          · rw [List.mem_singleton] at hb
            subst hb
            refine ⟨fun _ => by omega, fun g hg => ?_⟩
            cases hg
          · simp at hg
        · have hloop := split_xlsx_loop d h1 h2 h3
          have h' := hloop.symm.trans h
          simp only [Except.ok.injEq, Prod.mk.injEq] at h'
          obtain ⟨hbs, hws⟩ := h'
          subst hbs
          subst hws
          have hinv := xlsxFold_inv d d.sheetNames ⟨[], 0, [], []⟩ (xInv_init d)
          constructor
          · intro b hb
            obtain ⟨g, hg, rfl⟩ := List.mem_map.mp hb
            refine ⟨fun hw => ?_, fun g2 hg2 => ?_⟩
            · cases hw
            · have hgg : g = g2 := by
                injection hg2
              subst hgg
              rcases List.mem_append.mp hg with hg | hg
              · exact hinv.2.2.1 g hg
              · rw [List.mem_singleton.mp hg]
                exact hinv.2.1
          · intro g hg hover
            simp only [List.map_append, List.map_cons, List.map_nil] at hg
            rw [List.dropLast_concat] at hg
            obtain ⟨g2, hg2, hgg⟩ := List.mem_map.mp hg
            have : g2 = g := by
              injection hgg
            subst this
            exact hinv.2.2.2 _ hg2 hover

/-- Witness for the amended claim C2 at concrete documents: the whole
small input of the paged fast path is within the hard limit, and the
oversized single-sheet group of the sheeted run is a singleton. -/
theorem claim_C2_amended_witness :
    (pdfBlobSize pdfZeroSmall PdfBlob.whole ≤ TARGET_LIMIT_BYTES ∨
      ∃ a, PdfBlob.whole = PdfBlob.seg a (a + 1)) ∧
    (estSum xdocOversheet ["a"] ≤ SOFT_TARGET_BYTES ∨ ∃ s, ["a"] = [s]) := by
  constructor
  · exact claim_C2_amended.1 pdfZeroSmall 1 [PdfBlob.whole] rfl PdfBlob.whole
      (List.mem_singleton.mpr rfl)
  · exact ((claim_C2_amended.2 xdocOversheet [XBlob.group ["a"]] [] rfl).1
      (XBlob.group ["a"]) (List.mem_singleton.mpr rfl)).2 ["a"] rfl

/-- The error broadcasts of a gathered chunk fan-out are exactly those
of the failing chunks: each failing chunk task notifies the error hook
once, each succeeding one never (this count is invariant under the
interleaving of the concurrent tasks). -/
theorem gather_count (env : BigEnv) (name : List Char) :
    ∀ idxs : List Nat,
      (gatherChunks env name idxs).events.countP isErrorEvt
        = idxs.countP (chunkFails env) := by
  intro idxs
  induction idxs with
  | nil => rfl
  | cons i rest ih =>
    simp only [gatherChunks, List.countP_cons, List.countP_append]
    cases hci : env.chunkResult i with
    | ok t =>
      simp [processChunkRun, hci, chunkFails, isErrorEvt, List.countP_cons, ih]
    | error e =>
      simp [processChunkRun, hci, chunkFails, isErrorEvt, List.countP_cons, ih]
      omega

/-- The chunk fan-out only ever calls the per-chunk analysis agent,
never the final consolidation. -/
theorem gather_calls (env : BigEnv) (name : List Char) :
    ∀ idxs : List Nat, ∀ c ∈ (gatherChunks env name idxs).calls,
      isFinalConsolidation c = false := by
  intro idxs
  induction idxs with
  | nil =>
    intro c hc
    cases hc
  | cons i rest ih =>
    intro c hc
    simp only [gatherChunks] at hc
    rcases List.mem_append.mp hc with hc | hc
    · cases hci : env.chunkResult i with
      | ok t =>
        simp only [processChunkRun, hci] at hc
        rw [List.mem_singleton.mp hc]
        rfl
      | error e =>
        simp only [processChunkRun, hci] at hc
        rw [List.mem_singleton.mp hc]
        rfl
    · exact ih c hc

/-- If some chunk fails, the gather as a whole fails. -/
theorem gather_fail (env : BigEnv) (name : List Char) :
    ∀ idxs : List Nat, (∃ i ∈ idxs, chunkFails env i = true) →
      (gatherChunks env name idxs).outcome = .error () := by
  intro idxs
  induction idxs with
  | nil =>
    intro h
    obtain ⟨i, hi, _⟩ := h
    cases hi
  | cons j rest ih =>
    intro h
    simp only [gatherChunks]
    cases hcj : env.chunkResult j with
    | ok t =>
      simp only [processChunkRun, hcj]
      obtain ⟨i, hi, hfi⟩ := h
      rcases List.mem_cons.mp hi with hij | hi
      · subst hij
        rw [chunkFails, hcj] at hfi
        cases hfi
      · have hrest := ih ⟨i, hi, hfi⟩
        rw [hrest]
    | error e =>
      simp only [processChunkRun, hcj]

/-- If no chunk fails, the gather succeeds. -/
theorem gather_ok (env : BigEnv) (name : List Char) :
    ∀ idxs : List Nat, (∀ i ∈ idxs, chunkFails env i = false) →
      ∃ xs, (gatherChunks env name idxs).outcome = .ok xs := by
  intro idxs
  induction idxs with
  | nil =>
    intro _
    exact ⟨[], rfl⟩
  | cons j rest ih =>
    intro h
    obtain ⟨xs, hxs⟩ := ih (fun i hi => h i (List.mem_cons_of_mem j hi))
    have hj := h j (List.mem_cons_self j rest)
    simp only [gatherChunks]
    cases hcj : env.chunkResult j with
    | ok t =>
      simp only [processChunkRun, hcj]
      rw [hxs]
      exact ⟨(j, t) :: xs, rfl⟩
    | error e =>
      rw [chunkFails, hcj] at hj
      cases hj

/-- Claim C8: if exactly one chunk analysis of a chunked run raises,
the whole file's processing fails, the error hook is broadcast exactly
once, and no final consolidation request is issued. -/
theorem claim_C8 (env : BigEnv) (ids : List Nat) (name : List Char)
    (h : (List.range' 1 ids.length).countP (chunkFails env) = 1) :
    (process_big env (.ok ids) name).outcome = .error () ∧
    (process_big env (.ok ids) name).events.countP isErrorEvt = 1 ∧
    ∀ c ∈ (process_big env (.ok ids) name).calls,
      isFinalConsolidation c = false := by
  have hpos : 0 < (List.range' 1 ids.length).countP (chunkFails env) := by omega
  have hex := List.countP_pos_iff.mp hpos
  have hga := gather_fail env name (List.range' 1 ids.length) hex
  have hpb : process_big env (.ok ids) name
      = ⟨.processingStart name ids.length
            :: (gatherChunks env name (List.range' 1 ids.length)).events,
          (gatherChunks env name (List.range' 1 ids.length)).calls, .error ()⟩ := by
    simp only [process_big, hga]
  rw [hpb]
  refine ⟨rfl, ?_, ?_⟩
  · rw [List.countP_cons, gather_count env name, h]
    simp [isErrorEvt]
  · intro c hc
    exact gather_calls env name _ c hc

/-- The environment of the claim C8 witness: chunk 2 of three fails. -/
def bigEnvOneFail : BigEnv :=
  ⟨fun i => if i = 2 then .error () else .ok ['t'], .ok [.data ['x']]⟩

/-- Witness for claim C8 on a three-chunk run whose second chunk
fails. -/
theorem claim_C8_witness :
    (process_big bigEnvOneFail (.ok [7, 7, 7]) ['f']).outcome = .error () ∧
    (process_big bigEnvOneFail (.ok [7, 7, 7]) ['f']).events.countP isErrorEvt = 1 ∧
    ∀ c ∈ (process_big bigEnvOneFail (.ok [7, 7, 7]) ['f']).calls,
      isFinalConsolidation c = false :=
  claim_C8 bigEnvOneFail [7, 7, 7] ['f'] (by decide)

/-- The chunked-path environment whose final consolidation stream
fails. -/
def bigEnvConsFail : BigEnv := ⟨fun _ => .ok ['t'], .error ()⟩

/-- The direct-path environment whose whole-document stream fails. -/
def directEnvFail : DirectEnv := ⟨.error ()⟩

/-- Claim C1, amended.  A failing chunk analysis and a failing direct
whole-file stream broadcast the error hook before re-raising; but a
structural split failure re-raises with no broadcast of any kind, and a
failure of the final consolidation stream of the chunked path re-raises
without any error broadcast (the orchestrator wraps neither in
try/except). -/
theorem claim_C1_amended :
    (∀ (env : BigEnv) (name : List Char) (i : Nat), chunkFails env i = true →
      (processChunkRun env name i).outcome = .error () ∧
      PEvent.errorEvt ∈ (processChunkRun env name i).events) ∧
    (∀ (env : DirectEnv) (name : List Char), env.stream = .error () →
      (process_direct env name).outcome = .error () ∧
      PEvent.errorEvt ∈ (process_direct env name).events) ∧
    (∀ (env : BigEnv) (name : List Char),
      (process_big env (.error ()) name).outcome = .error () ∧
      (process_big env (.error ()) name).events = []) ∧
    (∀ (env : BigEnv) (ids : List Nat) (name : List Char),
      (∀ i ∈ List.range' 1 ids.length, chunkFails env i = false) →
      env.finalStream = .error () →
      (process_big env (.ok ids) name).outcome = .error () ∧
      (process_big env (.ok ids) name).events.countP isErrorEvt = 0) := by
  refine ⟨?_, ?_, ?_, ?_⟩
  · intro env name i hf
    unfold chunkFails at hf
    cases hci : env.chunkResult i with
    | ok t =>
      rw [hci] at hf
      cases hf
    | error e =>
      unfold processChunkRun
      rw [hci]
      exact ⟨rfl, by simp⟩
  · intro env name h
    unfold process_direct
    rw [h]
    exact ⟨rfl, by simp⟩
  · intro env name
    exact ⟨rfl, rfl⟩
  · intro env ids name hok hfs
    obtain ⟨xs, hxs⟩ := gather_ok env name (List.range' 1 ids.length) hok
    have hzero : (List.range' 1 ids.length).countP (chunkFails env) = 0 :=
      List.countP_eq_zero.mpr (fun a ha hcontra => by
        rw [hok a ha] at hcontra
        cases hcontra)
    have hpb : process_big env (.ok ids) name
        = ⟨(.processingStart name ids.length
              :: (gatherChunks env name (List.range' 1 ids.length)).events)
              ++ [.processingEnd name],
            (gatherChunks env name (List.range' 1 ids.length)).calls
              ++ [.finalConsolidation
                    (consolidate_and_truncate ((sortResults xs).map Prod.snd))],
            .error ()⟩ := by
      simp only [process_big, hxs, hfs]
    rw [hpb]
    refine ⟨rfl, ?_⟩
    simp [List.countP_append, List.countP_cons, isErrorEvt, gather_count env name, hzero]

/-- Witness for the amended claim C1 at concrete environments: a chunk
failure and a direct-path failure are broadcast; a split failure and a
final-consolidation failure re-raise without any error broadcast. -/
theorem claim_C1_amended_witness :
    ((processChunkRun bigEnvOneFail ['f'] 2).outcome = .error () ∧
      PEvent.errorEvt ∈ (processChunkRun bigEnvOneFail ['f'] 2).events) ∧
    ((process_direct directEnvFail ['f']).outcome = .error () ∧
      PEvent.errorEvt ∈ (process_direct directEnvFail ['f']).events) ∧
    ((process_big bigEnvOk (.error ()) ['f']).outcome = .error () ∧
      (process_big bigEnvOk (.error ()) ['f']).events = []) ∧
    ((process_big bigEnvConsFail (.ok [5]) ['f']).outcome = .error () ∧
      (process_big bigEnvConsFail (.ok [5]) ['f']).events.countP isErrorEvt = 0) :=
  ⟨claim_C1_amended.1 bigEnvOneFail ['f'] 2 (by decide),
    claim_C1_amended.2.1 directEnvFail ['f'] rfl,
    claim_C1_amended.2.2.1 bigEnvOk ['f'],
    claim_C1_amended.2.2.2 bigEnvConsFail [5] ['f'] (by decide) rfl⟩

/-- Normalization of whitespace to a plain space, used to state that the
sanitizer treats every whitespace character alike. -/
def normWs (c : Char) : Char :=
  if isWsChar c then ' ' else c

/-- Whitespace-ness is preserved by `normWs`. -/
theorem isWsChar_normWs (c : Char) : isWsChar (normWs c) = isWsChar c := by
  cases h : isWsChar c
  · simp [normWs, h]
  · simp [normWs, h]
    decide

/-- Unfolding of the collapse stage at a whitespace head. -/
theorem collapseWs_cons_true {c : Char} (h : isWsChar c = true) (l : List Char) :
    collapseWs (c :: l)
      = if (collapseWs l).head? = some ' ' then collapseWs l
        else ' ' :: collapseWs l := by
  simp [collapseWs, h]

/-- Unfolding of the collapse stage at a non-whitespace head. -/
theorem collapseWs_cons_false {c : Char} (h : isWsChar c = false) (l : List Char) :
    collapseWs (c :: l) = c :: collapseWs l := by
  simp [collapseWs, h]

/-- Collapsing runs of whitespace does not see the difference between
whitespace characters. -/
theorem collapseWs_map_normWs : ∀ l : List Char,
    collapseWs (l.map normWs) = collapseWs l := by
  intro l
  induction l with
  | nil => rfl
  | cons c rest ih =>
    cases h : isWsChar c with
    | false =>
      have hn : normWs c = c := by simp [normWs, h]
      show collapseWs (normWs c :: rest.map normWs) = collapseWs (c :: rest)
      rw [hn, collapseWs_cons_false h, collapseWs_cons_false h, ih]
    | true =>
      have hn : normWs c = ' ' := by simp [normWs, h]
      show collapseWs (normWs c :: rest.map normWs) = collapseWs (c :: rest)
      rw [hn, collapseWs_cons_true (by decide : isWsChar ' ' = true),
        collapseWs_cons_true h, ih]

/-- The underscore/period replacement commutes with whitespace
normalization. -/
theorem replaceSeps_normWs (c : Char) :
    replaceSeps (normWs c) = normWs (replaceSeps c) := by
  cases h : isWsChar c with
  | false =>
    have hn : normWs c = c := by simp [normWs, h]
    rw [hn]
    by_cases hc : c = '_' ∨ c = '.'
    · have hr : replaceSeps c = ' ' := by simp [replaceSeps, hc]
      rw [hr]
      decide
    · have hr : replaceSeps c = c := by simp [replaceSeps, hc]
      rw [hr, hn]
  | true =>
    have h6 : c = ' ' ∨ c = '\t' ∨ c = '\n' ∨ c = '\r' ∨ c = '\x0b' ∨ c = '\x0c' := by
      simpa [isWsChar, or_assoc] using h
    rcases h6 with h6 | h6 | h6 | h6 | h6 | h6 <;> subst h6 <;> decide

/-- The keep-filter commutes with whitespace normalization: whitespace
is kept, and non-whitespace is untouched by `normWs`. -/
theorem isKeptChar_normWs (c : Char) : isKeptChar (normWs c) = isKeptChar c := by
  cases h : isWsChar c with
  | false =>
    simp [normWs, h]
  | true =>
    have hn : normWs c = ' ' := by simp [normWs, h]
    rw [hn]
    have h1 : isKeptChar ' ' = true := by decide
    have h2 : isKeptChar c = true := by simp [isKeptChar, h]
    rw [h1, h2]

/-- Characters surviving the collapse stage are spaces or non-whitespace
characters of the input. -/
theorem mem_collapseWs : ∀ (l : List Char) (c : Char), c ∈ collapseWs l →
    c = ' ' ∨ (c ∈ l ∧ isWsChar c = false) := by
  intro l
  induction l with
  | nil =>
    intro c h
    cases h
  | cons a rest ih =>
    intro c h
    cases ha : isWsChar a with
    | false =>
      rw [collapseWs_cons_false ha] at h
      rcases List.mem_cons.mp h with h | h
      · refine Or.inr ⟨?_, ?_⟩
        · rw [h]
          exact List.mem_cons_self a rest
        · rw [h]
          exact ha
      · rcases ih c h with h | ⟨hmem, hw⟩
        · exact Or.inl h
        · exact Or.inr ⟨List.mem_cons_of_mem a hmem, hw⟩
    | true =>
      rw [collapseWs_cons_true ha] at h
      by_cases hh : (collapseWs rest).head? = some ' '
      · rw [if_pos hh] at h
        rcases ih c h with h | ⟨hmem, hw⟩
        · exact Or.inl h
        · exact Or.inr ⟨List.mem_cons_of_mem a hmem, hw⟩
      · rw [if_neg hh] at h
        rcases List.mem_cons.mp h with h | h
        · exact Or.inl h
        · rcases ih c h with h | ⟨hmem, hw⟩
          · exact Or.inl h
          · exact Or.inr ⟨List.mem_cons_of_mem a hmem, hw⟩

/-- Characters surviving the strip stage come from its input. -/
theorem mem_stripWs (l : List Char) (c : Char) (h : c ∈ stripWs l) : c ∈ l := by
  unfold stripWs at h
  rw [List.mem_reverse] at h
  have h1 := (List.dropWhile_sublist (l := (l.dropWhile isWsChar).reverse)
    (p := isWsChar)).subset h
  rw [List.mem_reverse] at h1
  exact (List.dropWhile_sublist (l := l) (p := isWsChar)).subset h1

/-- Claim C9, amended.  The sanitizer replaces underscores and periods
with spaces, strips every character outside `[A-Za-z0-9\s\-()[\]]` — the
class keeps all whitespace, not only the space — collapses every run of
whitespace to a single space, and trims.  Consequently a whitespace
character such as a tab is not removed but treated exactly like a space
(first conjunct), and every output character is a space or a kept
non-whitespace character (second conjunct). -/
theorem claim_C9_amended :
    (∀ s : List Char, sanitize_filename (s.map normWs) = sanitize_filename s) ∧
    (∀ (s : List Char) (c : Char), c ∈ sanitize_filename s →
      c = ' ' ∨ (isKeptChar c = true ∧ isWsChar c = false)) := by
  constructor
  · intro s
    unfold sanitize_filename
    have hcomm : replaceSeps ∘ normWs = normWs ∘ replaceSeps :=
      funext (fun c => replaceSeps_normWs c)
    have hmaps : (s.map normWs).map replaceSeps = (s.map replaceSeps).map normWs := by
      rw [List.map_map, List.map_map, hcomm]
    rw [hmaps]
    have hpred : (isKeptChar ∘ normWs) = isKeptChar :=
      funext (fun c => isKeptChar_normWs c)
    have hfil : ((s.map replaceSeps).map normWs).filter isKeptChar
        = ((s.map replaceSeps).filter isKeptChar).map normWs := by
      rw [List.filter_map, hpred]
    rw [hfil, collapseWs_map_normWs]
  · intro s c hc
    unfold sanitize_filename at hc
    have h1 := mem_stripWs _ _ hc
    rcases mem_collapseWs _ _ h1 with h | ⟨hmem, hw⟩
    · exact Or.inl h
    · exact Or.inr ⟨(List.mem_filter.mp hmem).2, hw⟩

/-- Witness for the amended claim C9 at the tab input of the
counterexample. -/
theorem claim_C9_amended_witness :
    sanitize_filename (['a', '\t', 'b'].map normWs)
        = sanitize_filename ['a', '\t', 'b'] ∧
      (' ' = ' ' ∨ (isKeptChar ' ' = true ∧ isWsChar ' ' = false)) :=
  ⟨claim_C9_amended.1 ['a', '\t', 'b'],
    claim_C9_amended.2 ['a', '\t', 'b'] ' ' (by decide)⟩
